import Mathlib

/-!
Shallow embedding of the scoring pipeline of `src/score.py` (university
ranking app).  All machine floats of the source are modelled as exact
rationals; the decimal literals of the source (`0.7`, `0.3`, `0.5`,
`0.2`, `2.5`) become the corresponding rationals.  The randomly drawn
reference populations of the source are modelled as explicit list
parameters, since the arithmetic of the pipeline is deterministic once
the drawn population is fixed.
-/

namespace Ranking

/-- `min_max_scale(value, min_val, max_val)` of `score.py`:
scales a value to a 0-10 range; returns 0 when `max_val == min_val`. -/
def min_max_scale (value min_val max_val : ℚ) : ℚ :=
  if max_val = min_val then 0 else 10 * (value - min_val) / (max_val - min_val)

/-- Count of elements of the series strictly less than `value`
(`np.sum(data_series < value)` in `score.py`). -/
def countLt (value : ℚ) (ds : List ℚ) : ℕ :=
  ds.countP (fun x => decide (x < value))

/-- Count of elements of the series equal to `value`
(`np.sum(data_series == value)` in `score.py`). -/
def countEq (value : ℚ) (ds : List ℚ) : ℕ :=
  ds.countP (fun x => decide (x = value))

/-- `percentile_score(value, data_series)` of `score.py`: mid-rank
percentile `(count_less_than + 0.5 * count_equal_to) / total_count`,
scaled to 0-10; returns 0 on an empty series. -/
def percentile_score (value : ℚ) (ds : List ℚ) : ℚ :=
  if ds.length = 0 then 0
  else 10 * (((countLt value ds : ℚ) + (1/2) * (countEq value ds : ℚ)) / (ds.length : ℚ))

/-- `survey_adjust(avg_rating)` of `score.py`: `2.5 * (avg_rating - 1)`. -/
def survey_adjust (avg_rating : ℚ) : ℚ :=
  (5/2) * (avg_rating - 1)

/-- `calculate_qtf` of `score.py`, with the randomly drawn
`dummy_data["Approachability_feedback_scores"]` population made an
explicit parameter.  Local weights: expertise 40 percent, clarity 30
percent, approachability 30 percent. -/
def calculate_qtf (approPop : List ℚ) (expertise_h_index clarity_avg_rating approachability_feedback_score : ℚ) : ℚ :=
  let expertise_score := min_max_scale expertise_h_index 1 50
  let clarity_score := survey_adjust clarity_avg_rating
  let approachability_score := percentile_score approachability_feedback_score approPop
  (2/5) * expertise_score + (3/10) * clarity_score + (3/10) * approachability_score

/-- A weight per factor (`current_weights` dictionary of `score.py`). -/
structure Weights where
  qtf : ℚ
  tm : ℚ
  ps : ℚ
  cc : ℚ
  ro : ℚ
deriving DecidableEq

/-- One rational per factor (raw or adjusted factor scores of `score.py`). -/
structure Factors where
  qtf : ℚ
  tm : ℚ
  ps : ℚ
  cc : ℚ
  ro : ℚ
deriving DecidableEq

/-- The values of a factor dictionary, in insertion order QTF, TM, PS, CC, RO
(the iteration order of the Python dictionaries of `score.py`). -/
def factorList (a : Factors) : List ℚ :=
  [a.qtf, a.tm, a.ps, a.cc, a.ro]

/-- Sum of the five weights of a weight set. -/
def weightSum (w : Weights) : ℚ :=
  w.qtf + w.tm + w.ps + w.cc + w.ro

/-- Peer adjustment of one factor (`score.py` lines 298-308): append the
raw score to the drawn population, take the mid-rank percentile of the
raw score inside the augmented population, divide by 10, then blend
`0.7 * raw + 0.3 * (percentile_rank_factor * 10)`. -/
def adjusted_factor_score (score_raw : ℚ) (pop : List ℚ) : ℚ :=
  let temp_data_for_percentile := pop ++ [score_raw]
  let percentile_rank_factor := percentile_score score_raw temp_data_for_percentile / 10
  (7/10) * score_raw + (3/10) * percentile_rank_factor * 10

/-- `base_score` of `score.py`: weighted sum of the adjusted factor
scores over the five factors. -/
def base_score (w : Weights) (a : Factors) : ℚ :=
  w.qtf * a.qtf + w.tm * a.tm + w.ps * a.ps + w.cc * a.cc + w.ro * a.ro

/-- Descending insertion of one element into a descending-sorted list. -/
def insertDesc (x : ℚ) : List ℚ → List ℚ
  | [] => [x]
  | y :: ys => if y ≤ x then x :: y :: ys else y :: insertDesc x ys

/-- Descending sort (`sorted(high_scoring_factors, reverse=True)` of
`score.py`; only the multiset of the first three elements matters). -/
def sortDesc : List ℚ → List ℚ
  | [] => []
  | x :: xs => insertDesc x (sortDesc xs)

/-- `synergy_bonus` of `score.py` lines 314-321: if at least 3 adjusted
factor scores exceed 7, half of (mean of the top 3 such scores minus 7),
replaced by 0 when negative; otherwise 0.  `np.mean` of the taken slice
is its sum divided by its length. -/
def synergy_bonus (a : Factors) : ℚ :=
  let high_scoring_factors := (factorList a).filter (fun s => decide (7 < s))
  if 3 ≤ high_scoring_factors.length then
    let top3 := (sortDesc high_scoring_factors).take 3
    let avg_top_3 := top3.sum / (top3.length : ℚ)
    let b := (1/2) * (avg_top_3 - 7)
    if b < 0 then 0 else b
  else 0

/-- `penalty` of `score.py` lines 323-325: `0.2` times the count of
adjusted factor scores strictly below 3. -/
def penalty (a : Factors) : ℚ :=
  (1/5) * (((factorList a).countP (fun s => decide (s < 3)) : ℚ))

/-- `final_score_0_10` of `score.py` lines 327-331: base plus bonus
minus penalty, clamped into [0, 10] by `max(0, min(10, _))`. -/
def final_score_0_10 (base bonus pen : ℚ) : ℚ :=
  max 0 (min 10 (base + bonus - pen))

/-- `final_score_1000` of `score.py` line 334: `(final_score_0_10 / 10) * MAX_SCORE`
with `MAX_SCORE = 1000`. -/
def final_score_1000 (f : ℚ) : ℚ :=
  f / 10 * 1000

/-- `current_weights` of `score.py` lines 200-219 for the Custom scheme:
five integer slider percentages; when their total is not 100 the app
warns and renormalizes with `norm_factor = 100 / total` (0 when the
total is 0), otherwise each percentage is divided by 100.  The boolean
records whether the renormalization warning was shown. -/
def current_weights (q t p c r : ℕ) : Weights × Bool :=
  let total_custom_weight := q + t + p + c + r
  if total_custom_weight ≠ 100 then
    let norm_factor : ℚ := if 0 < total_custom_weight then 100 / (total_custom_weight : ℚ) else 0
    ({ qtf := q * norm_factor / 100
       tm := t * norm_factor / 100
       ps := p * norm_factor / 100
       cc := c * norm_factor / 100
       ro := r * norm_factor / 100 }, true)
  else
    ({ qtf := (q : ℚ) / 100
       tm := (t : ℚ) / 100
       ps := (p : ℚ) / 100
       cc := (c : ℚ) / 100
       ro := (r : ℚ) / 100 }, false)

/-- Mean of the top 3 adjusted factor scores exceeding 7, as the spec
words it: sum of the three largest such scores divided by 3. -/
def topThreeMean (a : Factors) : ℚ :=
  ((sortDesc ((factorList a).filter (fun s => decide (7 < s)))).take 3).sum / 3

lemma percentile_score_below (v : ℚ) (ds : List ℚ) (h : ∀ x ∈ ds, v < x) :
    percentile_score v ds = 0 := by
  have hlt : countLt v ds = 0 := by
    apply List.countP_eq_zero.2
    intro x hx
    simp only [decide_eq_true_eq]
    exact not_lt.2 (le_of_lt (h x hx))
  have heq : countEq v ds = 0 := by
    apply List.countP_eq_zero.2
    intro x hx
    simp only [decide_eq_true_eq]
    intro hxv
    exact absurd (h x hx) (by rw [hxv]; exact lt_irrefl v)
  unfold percentile_score
  rw [hlt, heq]
  by_cases hl : ds.length = 0 <;> simp [hl]

lemma percentile_score_above (v : ℚ) (ds : List ℚ) (hne : ds ≠ [])
    (h : ∀ x ∈ ds, x < v) : percentile_score v ds = 10 := by
  have hlt : countLt v ds = ds.length := by
    apply List.countP_eq_length.2
    intro x hx
    simp only [decide_eq_true_eq]
    exact h x hx
  have heq : countEq v ds = 0 := by
    apply List.countP_eq_zero.2
    intro x hx
    simp only [decide_eq_true_eq]
    intro hxv
    exact absurd (h x hx) (by rw [hxv]; exact lt_irrefl v)
  have hl : ds.length ≠ 0 := fun h0 => hne (List.length_eq_zero.1 h0)
  have hlq : (ds.length : ℚ) ≠ 0 := Nat.cast_ne_zero.2 hl
  unfold percentile_score
  rw [hlt, heq, if_neg hl]
  field_simp

lemma percentile_score_all_eq (v : ℚ) (ds : List ℚ) (hne : ds ≠ [])
    (h : ∀ x ∈ ds, x = v) : percentile_score v ds = 5 := by
  have hlt : countLt v ds = 0 := by
    apply List.countP_eq_zero.2
    intro x hx
    simp only [decide_eq_true_eq]
    rw [h x hx]
    exact lt_irrefl v
  have heq : countEq v ds = ds.length := by
    apply List.countP_eq_length.2
    intro x hx
    simp only [decide_eq_true_eq]
    exact h x hx
  have hl : ds.length ≠ 0 := fun h0 => hne (List.length_eq_zero.1 h0)
  have hlq : (ds.length : ℚ) ≠ 0 := Nat.cast_ne_zero.2 hl
  unfold percentile_score
  rw [hlt, heq, if_neg hl]
  field_simp
  ring

lemma adjusted_factor_score_eq (score_raw : ℚ) (pop : List ℚ) :
    adjusted_factor_score score_raw pop
      = (7/10) * score_raw + (3/10) * percentile_score score_raw (pop ++ [score_raw]) := by
  unfold adjusted_factor_score
  ring

lemma countEq_self_append (v : ℚ) (pop : List ℚ) :
    1 ≤ countEq v (pop ++ [v]) := by
  unfold countEq
  rw [List.countP_append]
  simp

lemma percentile_score_append_lower (v : ℚ) (pop : List ℚ) :
    (5 : ℚ) / ((pop ++ [v]).length : ℚ) ≤ percentile_score v (pop ++ [v]) := by
  set ds := pop ++ [v] with hds
  have hl : ds.length = pop.length + 1 := by simp [hds]
  have hl0 : ds.length ≠ 0 := by omega
  have hlq : (0 : ℚ) < (ds.length : ℚ) := by
    exact_mod_cast Nat.pos_of_ne_zero hl0
  have heq1 : (1 : ℚ) ≤ (countEq v ds : ℚ) := by
    exact_mod_cast countEq_self_append v pop
  have hlt0 : (0 : ℚ) ≤ (countLt v ds : ℚ) := Nat.cast_nonneg _
  unfold percentile_score
  rw [if_neg hl0]
  rw [← mul_div_assoc, div_le_div_iff₀ hlq hlq]
  nlinarith

lemma length_insertDesc (x : ℚ) (l : List ℚ) :
    (insertDesc x l).length = l.length + 1 := by
  induction l with
  | nil => rfl
  | cons y ys ih =>
      unfold insertDesc
      by_cases h : y ≤ x <;> simp [h, ih]

lemma length_sortDesc (l : List ℚ) : (sortDesc l).length = l.length := by
  induction l with
  | nil => rfl
  | cons x xs ih =>
      unfold sortDesc
      rw [length_insertDesc, ih, List.length_cons]

/-- Claim C1: for every base score, synergy bonus and penalty, the final
0-10 score equals `clamp(base + bonus - penalty, 0, 10)`, written as
`max 0 (min 10 _)`, hence lies in [0, 10]; the final 1000-scale score
equals `final0to10 / 10 * 1000 = final0to10 * 100`, hence lies in
[0, 1000]. -/
theorem final_score_clamped (base bonus pen : ℚ) :
    final_score_0_10 base bonus pen = max 0 (min 10 (base + bonus - pen))
    ∧ 0 ≤ final_score_0_10 base bonus pen
    ∧ final_score_0_10 base bonus pen ≤ 10
    ∧ final_score_1000 (final_score_0_10 base bonus pen)
        = final_score_0_10 base bonus pen * 100
    ∧ 0 ≤ final_score_1000 (final_score_0_10 base bonus pen)
    ∧ final_score_1000 (final_score_0_10 base bonus pen) ≤ 1000 := by
  have h0 : 0 ≤ final_score_0_10 base bonus pen := le_max_left 0 _
  have h10 : final_score_0_10 base bonus pen ≤ 10 := by
    unfold final_score_0_10
    exact max_le (by norm_num) (min_le_left 10 _)
  have h100 : final_score_1000 (final_score_0_10 base bonus pen)
      = final_score_0_10 base bonus pen * 100 := by
    unfold final_score_1000
    ring
  refine ⟨rfl, h0, h10, h100, ?_, ?_⟩
  · rw [h100]; nlinarith
  · rw [h100]; nlinarith

/-- Claim C2: the peer-adjusted score appends the raw factor score to the
drawn 1000-sample population, giving a 1001-element augmented
population, and equals `0.7 * raw + 0.3 * percentileRank` of the raw
score within that augmented population on the [0,10] scale — the
intermediate division by 10 and multiplication by 10 cancel. -/
theorem adjusted_factor_blend (pop : List ℚ) (score_raw : ℚ)
    (h : pop.length = 1000) :
    (pop ++ [score_raw]).length = 1001
    ∧ adjusted_factor_score score_raw pop
        = (7/10) * score_raw
          + (3/10) * percentile_score score_raw (pop ++ [score_raw]) := by
  constructor
  · simp [h]
  · exact adjusted_factor_score_eq score_raw pop

/-- Witness for `adjusted_factor_blend` at the all-zero population of
length 1000 and raw score 0. -/
theorem adjusted_factor_blend_witness :
    (List.replicate 1000 (0:ℚ)).length = 1000
    ∧ ((List.replicate 1000 (0:ℚ)) ++ [(0:ℚ)]).length = 1001
    ∧ adjusted_factor_score 0 (List.replicate 1000 (0:ℚ))
        = (7/10) * 0
          + (3/10) * percentile_score 0 (List.replicate 1000 (0:ℚ) ++ [(0:ℚ)]) := by
  have h : (List.replicate 1000 (0:ℚ)).length = 1000 := List.length_replicate 1000 0
  exact ⟨h, (adjusted_factor_blend (List.replicate 1000 (0:ℚ)) 0 h).1,
    (adjusted_factor_blend (List.replicate 1000 (0:ℚ)) 0 h).2⟩

/-- Claim C6: for every set of five adjusted factor scores, the penalty
equals 0.2 times the count of scores strictly below 3, and is a
non-negative multiple of 0.2 lying in [0, 1]. -/
theorem penalty_spec (a : Factors) :
    penalty a = (1/5) * (((factorList a).countP (fun s => decide (s < 3)) : ℚ))
    ∧ (∃ k : ℕ, k ≤ 5 ∧ penalty a = (1/5) * (k : ℚ))
    ∧ 0 ≤ penalty a
    ∧ penalty a ≤ 1 := by
  have hle : (factorList a).countP (fun s => decide (s < 3)) ≤ 5 := by
    have h5 : (factorList a).length = 5 := rfl
    calc (factorList a).countP (fun s => decide (s < 3))
        ≤ (factorList a).length := List.countP_le_length _
      _ = 5 := h5
  have hc : (0 : ℚ) ≤ (((factorList a).countP (fun s => decide (s < 3)) : ℚ)) :=
    Nat.cast_nonneg _
  have hcq : (((factorList a).countP (fun s => decide (s < 3)) : ℚ)) ≤ 5 := by
    exact_mod_cast hle
  refine ⟨rfl, ⟨(factorList a).countP (fun s => decide (s < 3)), hle, rfl⟩, ?_, ?_⟩
  · unfold penalty; nlinarith
  · unfold penalty; nlinarith

/-- Claim C9: `scaleLinear` maps linearly via `10 * (value - min) / (max - min)`;
for min < max it sends min to 0 and max to 10 and is monotone
non-decreasing in the value; for min = max it returns 0. -/
theorem min_max_scale_spec (value min_val max_val : ℚ) :
    (min_val < max_val →
      min_max_scale value min_val max_val
        = 10 * (value - min_val) / (max_val - min_val))
    ∧ (min_val < max_val → min_max_scale min_val min_val max_val = 0)
    ∧ (min_val < max_val → min_max_scale max_val min_val max_val = 10)
    ∧ (∀ v w : ℚ, min_val < max_val → v ≤ w →
        min_max_scale v min_val max_val ≤ min_max_scale w min_val max_val)
    ∧ (min_val = max_val → min_max_scale value min_val max_val = 0) := by
  have hform : ∀ v : ℚ, min_val < max_val →
      min_max_scale v min_val max_val = 10 * (v - min_val) / (max_val - min_val) := by
    intro v hlt
    unfold min_max_scale
    rw [if_neg (ne_of_gt hlt)]
  refine ⟨hform value, ?_, ?_, ?_, ?_⟩
  · intro hlt; rw [hform min_val hlt]; simp
  · intro hlt
    rw [hform max_val hlt]
    have hne : max_val - min_val ≠ 0 := sub_ne_zero.2 (ne_of_gt hlt)
    field_simp
  · intro v w hlt hvw
    rw [hform v hlt, hform w hlt]
    have hpos : (0:ℚ) < max_val - min_val := sub_pos.2 hlt
    rw [div_le_div_iff₀ hpos hpos]
    nlinarith
  · intro heq
    unfold min_max_scale
    rw [if_pos heq.symm]

/-- Claim C4: for every weight set whose five non-negative weights sum
to 1, the base score is the weighted sum of the adjusted factor scores,
a convex combination; hence it lies in [0, 10] whenever every adjusted
factor score does. -/
theorem base_score_convex (w : Weights) (a : Factors)
    (hwq : 0 ≤ w.qtf) (hwt : 0 ≤ w.tm) (hwp : 0 ≤ w.ps)
    (hwc : 0 ≤ w.cc) (hwr : 0 ≤ w.ro) (hsum : weightSum w = 1)
    (h1 : 0 ≤ a.qtf) (h2 : a.qtf ≤ 10) (h3 : 0 ≤ a.tm) (h4 : a.tm ≤ 10)
    (h5 : 0 ≤ a.ps) (h6 : a.ps ≤ 10) (h7 : 0 ≤ a.cc) (h8 : a.cc ≤ 10)
    (h9 : 0 ≤ a.ro) (h10 : a.ro ≤ 10) :
    base_score w a
      = w.qtf * a.qtf + w.tm * a.tm + w.ps * a.ps + w.cc * a.cc + w.ro * a.ro
    ∧ 0 ≤ base_score w a
    ∧ base_score w a ≤ 10 := by
  unfold weightSum at hsum
  refine ⟨rfl, ?_, ?_⟩
  · unfold base_score
    nlinarith [mul_nonneg hwq h1, mul_nonneg hwt h3, mul_nonneg hwp h5,
      mul_nonneg hwc h7, mul_nonneg hwr h9]
  · unfold base_score
    nlinarith [mul_le_mul_of_nonneg_left h2 hwq, mul_le_mul_of_nonneg_left h4 hwt,
      mul_le_mul_of_nonneg_left h6 hwp, mul_le_mul_of_nonneg_left h8 hwc,
      mul_le_mul_of_nonneg_left h10 hwr]

/-- Witness for `base_score_convex` at the Default preset weights and
all adjusted factor scores equal to 5. -/
theorem base_score_convex_witness :
    weightSum ⟨1/4, 1/5, 1/5, 3/20, 1/5⟩ = 1
    ∧ base_score ⟨1/4, 1/5, 1/5, 3/20, 1/5⟩ ⟨5, 5, 5, 5, 5⟩
        = (1/4) * 5 + (1/5) * 5 + (1/5) * 5 + (3/20) * 5 + (1/5) * 5
    ∧ 0 ≤ base_score ⟨1/4, 1/5, 1/5, 3/20, 1/5⟩ ⟨5, 5, 5, 5, 5⟩
    ∧ base_score ⟨1/4, 1/5, 1/5, 3/20, 1/5⟩ ⟨5, 5, 5, 5, 5⟩ ≤ 10 := by
  have h := base_score_convex ⟨1/4, 1/5, 1/5, 3/20, 1/5⟩ ⟨5, 5, 5, 5, 5⟩
    (by norm_num) (by norm_num) (by norm_num) (by norm_num) (by norm_num)
    (by unfold weightSum; norm_num)
    (by norm_num) (by norm_num) (by norm_num) (by norm_num) (by norm_num)
    (by norm_num) (by norm_num) (by norm_num) (by norm_num) (by norm_num)
  exact ⟨by unfold weightSum; norm_num, h.1, h.2.1, h.2.2⟩

lemma ite_neg_eq_max (x : ℚ) : (if x < 0 then 0 else x) = max 0 x := by
  rcases lt_or_le x 0 with h | h
  · rw [if_pos h, max_eq_left h.le]
  · rw [if_neg (not_lt.2 h), max_eq_right h]

/-- Claim C5: with fewer than 3 adjusted factor scores exceeding 7 the
synergy bonus is 0; with at least 3 such scores it equals
`0.5 * (mean of the top 3 such scores - 7)` floored at 0; it is
non-negative in every case. -/
theorem synergy_bonus_spec (a : Factors) :
    0 ≤ synergy_bonus a
    ∧ ((factorList a).countP (fun s => decide (7 < s)) < 3 → synergy_bonus a = 0)
    ∧ (3 ≤ (factorList a).countP (fun s => decide (7 < s)) →
        synergy_bonus a = max 0 ((1/2) * (topThreeMean a - 7))) := by
  have hcount : (factorList a).countP (fun s => decide (7 < s))
      = ((factorList a).filter (fun s => decide (7 < s))).length :=
    List.countP_eq_length_filter _ _
  by_cases h3 : 3 ≤ ((factorList a).filter (fun s => decide (7 < s))).length
  · have hlen : ((sortDesc ((factorList a).filter (fun s => decide (7 < s)))).take 3).length = 3 := by
      rw [List.length_take, length_sortDesc]
      omega
    have heq : synergy_bonus a = max 0 ((1/2) * (topThreeMean a - 7)) := by
      unfold synergy_bonus topThreeMean
      rw [if_pos h3]
      simp only [hlen, ite_neg_eq_max]
      norm_num
    refine ⟨?_, ?_, fun _ => heq⟩
    · rw [heq]; exact le_max_left 0 _
    · intro hlt; rw [hcount] at hlt; omega
  · have heq : synergy_bonus a = 0 := by
      unfold synergy_bonus
      rw [if_neg h3]
    exact ⟨le_of_eq heq.symm, fun _ => heq, fun hge => by rw [hcount] at hge; omega⟩

/-- Witness for `synergy_bonus_spec`: three scores of 8 exceed 7, so
the bonus is the floored half-excess of the top-3 mean; and with a
single score of 8 the bonus is 0. -/
theorem synergy_bonus_spec_witness :
    3 ≤ (factorList ⟨8, 8, 8, 0, 0⟩).countP (fun s => decide (7 < s))
    ∧ synergy_bonus ⟨8, 8, 8, 0, 0⟩ = max 0 ((1/2) * (topThreeMean ⟨8, 8, 8, 0, 0⟩ - 7))
    ∧ (factorList ⟨8, 0, 0, 0, 0⟩).countP (fun s => decide (7 < s)) < 3
    ∧ synergy_bonus ⟨8, 0, 0, 0, 0⟩ = 0 := by
  have hc1 : 3 ≤ (factorList ⟨8, 8, 8, 0, 0⟩).countP (fun s => decide (7 < s)) := by
    decide
  have hc2 : (factorList ⟨8, 0, 0, 0, 0⟩).countP (fun s => decide (7 < s)) < 3 := by
    decide
  exact ⟨hc1, (synergy_bonus_spec ⟨8, 8, 8, 0, 0⟩).2.2 hc1, hc2,
    (synergy_bonus_spec ⟨8, 0, 0, 0, 0⟩).2.1 hc2⟩

/-- Claim C8: the percentile score is the mid-rank
`(strictly-lesser count + half the equal count) / size` scaled to
[0, 10]; it is 0 on an empty reference set, 0 below every element, 10
above every element of a non-empty set, and 5 when equal to every
element of a non-empty set. -/
theorem percentile_rank_spec (value : ℚ) (ds : List ℚ) :
    percentile_score value ds
      = (if ds.length = 0 then 0
         else 10 * (((countLt value ds : ℚ) + (1/2) * (countEq value ds : ℚ)) / (ds.length : ℚ)))
    ∧ (ds = [] → percentile_score value ds = 0)
    ∧ ((∀ x ∈ ds, value < x) → percentile_score value ds = 0)
    ∧ (ds ≠ [] → (∀ x ∈ ds, x < value) → percentile_score value ds = 10)
    ∧ (ds ≠ [] → (∀ x ∈ ds, x = value) → percentile_score value ds = 5) := by
  refine ⟨rfl, ?_, percentile_score_below value ds,
    percentile_score_above value ds, percentile_score_all_eq value ds⟩
  intro h
  subst h
  rfl

/-- Witness for `percentile_rank_spec`: the value 3 is above every
element of [1, 2] and scores 10; the value 4 equals every element of
[4, 4] and scores 5. -/
theorem percentile_rank_spec_witness :
    ([(1:ℚ), 2] ≠ [] ∧ percentile_score 3 [(1:ℚ), 2] = 10)
    ∧ ([(4:ℚ), 4] ≠ [] ∧ percentile_score 4 [(4:ℚ), 4] = 5) := by
  have h1 : ([(1:ℚ), 2] : List ℚ) ≠ [] := by simp
  have h2 : ([(4:ℚ), 4] : List ℚ) ≠ [] := by simp
  refine ⟨⟨h1, (percentile_rank_spec 3 [(1:ℚ), 2]).2.2.2.1 h1 ?_⟩,
    ⟨h2, (percentile_rank_spec 4 [(4:ℚ), 4]).2.2.2.2 h2 ?_⟩⟩
  · intro x hx
    rcases List.mem_cons.1 hx with h | h
    · rw [h]; norm_num
    · rcases List.mem_cons.1 h with h0 | h0
      · rw [h0]; norm_num
      · simp at h0
  · intro x hx
    rcases List.mem_cons.1 hx with h | h
    · exact h
    · rcases List.mem_cons.1 h with h0 | h0
      · exact h0
      · simp at h0

/-- Claim C10: the peer-adjusted score strictly exceeds 0.7 times the
raw score, because the raw score itself belongs to the augmented
population, so its mid-rank percentile is strictly positive — at least
`10 * 0.5 / 1001 = 5/1001` for the 1000-sample population. -/
theorem adjusted_exceeds_blend_base (pop : List ℚ) (score_raw : ℚ) :
    (7/10) * score_raw < adjusted_factor_score score_raw pop
    ∧ (pop.length = 1000 →
        (5/1001 : ℚ) ≤ percentile_score score_raw (pop ++ [score_raw])) := by
  have hlen : ((pop ++ [score_raw]).length : ℚ) = (pop.length : ℚ) + 1 := by
    have hn : (pop ++ [score_raw]).length = pop.length + 1 := by simp
    rw [hn]
    push_cast
    ring
  have hlenpos : (0 : ℚ) < ((pop ++ [score_raw]).length : ℚ) := by
    rw [hlen]
    have : (0:ℚ) ≤ (pop.length : ℚ) := Nat.cast_nonneg _
    linarith
  have hlow := percentile_score_append_lower score_raw pop
  have hpos : 0 < percentile_score score_raw (pop ++ [score_raw]) := by
    have h5 : (0:ℚ) < 5 / ((pop ++ [score_raw]).length : ℚ) := by positivity
    linarith
  constructor
  · rw [adjusted_factor_score_eq]
    nlinarith
  · intro h1000
    have hl : ((pop ++ [score_raw]).length : ℚ) = 1001 := by
      rw [hlen, h1000]
      norm_num
    rw [hl] at hlow
    exact hlow

/-- Witness for `adjusted_exceeds_blend_base` at the all-ten population
of length 1000 and raw score 0. -/
theorem adjusted_exceeds_blend_base_witness :
    (7/10) * (0:ℚ) < adjusted_factor_score 0 (List.replicate 1000 (10:ℚ))
    ∧ (List.replicate 1000 (10:ℚ)).length = 1000
    ∧ (5/1001 : ℚ) ≤ percentile_score 0 (List.replicate 1000 (10:ℚ) ++ [(0:ℚ)]) := by
  have h : (List.replicate 1000 (10:ℚ)).length = 1000 := List.length_replicate 1000 10
  exact ⟨(adjusted_exceeds_blend_base (List.replicate 1000 (10:ℚ)) 0).1, h,
    (adjusted_exceeds_blend_base (List.replicate 1000 (10:ℚ)) 0).2 h⟩

/-- Witness for `min_max_scale_spec` at value 3 on the range [0, 10]. -/
theorem min_max_scale_spec_witness :
    ((0:ℚ) < 10)
    ∧ min_max_scale 0 0 10 = 0
    ∧ min_max_scale 10 0 10 = 10
    ∧ min_max_scale 3 0 10 ≤ min_max_scale 7 0 10 := by
  have h : (0:ℚ) < 10 := by norm_num
  exact ⟨h, (min_max_scale_spec 3 0 10).2.1 h,
    (min_max_scale_spec 3 0 10).2.2.1 h,
    (min_max_scale_spec 3 0 10).2.2.2.1 3 7 h (by norm_num)⟩

/-- Claim C7 counterexample: with all five Custom percentages 0 (each
slider allows 0), the sum is 0, not 100, yet the code's `norm_factor`
guard yields five zero weights whose sum is 0, not the 1.0 the claim
asserts for every Custom selection. -/
theorem custom_weights_zero_counterexample :
    (0 + 0 + 0 + 0 + 0 ≠ 100)
    ∧ weightSum (current_weights 0 0 0 0 0).1 = 0
    ∧ weightSum (current_weights 0 0 0 0 0).1 ≠ 1 := by
  refine ⟨by norm_num, ?_, ?_⟩
  · simp [current_weights, weightSum]
  · simp [current_weights, weightSum]

/-- Claim C7 (amended): for every Custom selection of five integer
percentages with positive sum: when they sum to exactly 100 they are
used as-is, each divided by 100, with no renormalization warning;
otherwise the warning is shown and each effective weight equals its
percentage divided by the total — a proportional renormalization that
preserves the relative ratios — and in both cases the five effective
weights sum to 1. -/
theorem custom_weights_renormalize (q t p c r : ℕ)
    (hpos : 0 < q + t + p + c + r) :
    weightSum (current_weights q t p c r).1 = 1
    ∧ (q + t + p + c + r = 100 →
        (current_weights q t p c r).2 = false
        ∧ (current_weights q t p c r).1
            = ⟨(q:ℚ)/100, (t:ℚ)/100, (p:ℚ)/100, (c:ℚ)/100, (r:ℚ)/100⟩)
    ∧ (q + t + p + c + r ≠ 100 →
        (current_weights q t p c r).2 = true
        ∧ (current_weights q t p c r).1
            = ⟨(q:ℚ)/((q+t+p+c+r : ℕ) : ℚ), (t:ℚ)/((q+t+p+c+r : ℕ) : ℚ),
               (p:ℚ)/((q+t+p+c+r : ℕ) : ℚ), (c:ℚ)/((q+t+p+c+r : ℕ) : ℚ),
               (r:ℚ)/((q+t+p+c+r : ℕ) : ℚ)⟩) := by
  have hS0 : ((q + t + p + c + r : ℕ) : ℚ) ≠ 0 := by
    exact_mod_cast Nat.pos_iff_ne_zero.1 hpos
  by_cases h : q + t + p + c + r = 100
  · have hw : current_weights q t p c r
        = (⟨(q:ℚ)/100, (t:ℚ)/100, (p:ℚ)/100, (c:ℚ)/100, (r:ℚ)/100⟩, false) := by
      simp only [current_weights, h]
      norm_num
    refine ⟨?_, fun _ => ⟨by rw [hw], by rw [hw]⟩, fun hne => absurd h hne⟩
    rw [hw]
    unfold weightSum
    have hq : ((q + t + p + c + r : ℕ) : ℚ) = 100 := by exact_mod_cast h
    push_cast at hq
    field_simp
    linarith
  · have hw : current_weights q t p c r
        = (⟨(q:ℚ)/((q+t+p+c+r : ℕ) : ℚ), (t:ℚ)/((q+t+p+c+r : ℕ) : ℚ),
            (p:ℚ)/((q+t+p+c+r : ℕ) : ℚ), (c:ℚ)/((q+t+p+c+r : ℕ) : ℚ),
            (r:ℚ)/((q+t+p+c+r : ℕ) : ℚ)⟩, true) := by
      simp only [current_weights, if_neg (not_not_intro h), if_pos h, if_pos hpos]
      refine Prod.ext ?_ rfl
      have hfield : ∀ x : ℕ, (x : ℚ) * (100 / ((q+t+p+c+r : ℕ) : ℚ)) / 100
          = (x : ℚ) / ((q+t+p+c+r : ℕ) : ℚ) := by
        intro x
        ring
      simp only [hfield]
    refine ⟨?_, fun heq => absurd heq h, fun _ => ⟨by rw [hw], by rw [hw]⟩⟩
    rw [hw]
    unfold weightSum
    rw [div_add_div_same, div_add_div_same, div_add_div_same, div_add_div_same,
      div_eq_one_iff_eq hS0]
    push_cast
    ring

/-- Witness for `custom_weights_renormalize`: (30,30,20,10,10) sums to
100 and is used as-is without warning; (40,40,40,40,40) sums to 200 and
is renormalized to effective weights 0.2 each, with warning; both sum
to 1. -/
theorem custom_weights_renormalize_witness :
    (weightSum (current_weights 30 30 20 10 10).1 = 1
      ∧ (current_weights 30 30 20 10 10).2 = false
      ∧ (current_weights 30 30 20 10 10).1
          = ⟨(30:ℚ)/100, (30:ℚ)/100, (20:ℚ)/100, (10:ℚ)/100, (10:ℚ)/100⟩)
    ∧ (weightSum (current_weights 40 40 40 40 40).1 = 1
      ∧ (current_weights 40 40 40 40 40).2 = true
      ∧ (current_weights 40 40 40 40 40).1
          = ⟨(40:ℚ)/((40+40+40+40+40 : ℕ) : ℚ), (40:ℚ)/((40+40+40+40+40 : ℕ) : ℚ),
             (40:ℚ)/((40+40+40+40+40 : ℕ) : ℚ), (40:ℚ)/((40+40+40+40+40 : ℕ) : ℚ),
             (40:ℚ)/((40+40+40+40+40 : ℕ) : ℚ)⟩) := by
  have h1 := custom_weights_renormalize 30 30 20 10 10 (by norm_num)
  have h2 := custom_weights_renormalize 40 40 40 40 40 (by norm_num)
  exact ⟨⟨h1.1, (h1.2.1 (by norm_num)).1, (h1.2.1 (by norm_num)).2⟩,
    ⟨h2.1, (h2.2.2 (by norm_num)).1, (h2.2.2 (by norm_num)).2⟩⟩

/-- Claim C3: the percentile-based sub-metric scores depend on the drawn
reference population — two admissible 1000-sample populations over the
stated [0, 10] range give different QTF scores for identical raw
inputs; since `score.py` redraws its populations with
`np.random.uniform` on every invocation, identical inputs need not
reproduce the same score across calls. -/
theorem population_dependence :
    ∃ p1 p2 : List ℚ,
      p1.length = 1000 ∧ p2.length = 1000
      ∧ (∀ x ∈ p1, 0 ≤ x ∧ x ≤ 10) ∧ (∀ x ∈ p2, 0 ≤ x ∧ x ≤ 10)
      ∧ calculate_qtf p1 25 4 7 ≠ calculate_qtf p2 25 4 7 := by
  refine ⟨List.replicate 1000 0, List.replicate 1000 10,
    List.length_replicate 1000 0, List.length_replicate 1000 10, ?_, ?_, ?_⟩
  · intro x hx
    rw [List.eq_of_mem_replicate hx]
    norm_num
  · intro x hx
    rw [List.eq_of_mem_replicate hx]
    norm_num
  · have hne1 : (List.replicate 1000 (0:ℚ)) ≠ [] := by
      apply List.length_pos.1
      rw [List.length_replicate]
      norm_num
    have e1 : percentile_score 7 (List.replicate 1000 (0:ℚ)) = 10 :=
      percentile_score_above 7 _ hne1
        (fun x hx => by rw [List.eq_of_mem_replicate hx]; norm_num)
    have e2 : percentile_score 7 (List.replicate 1000 (10:ℚ)) = 0 :=
      percentile_score_below 7 _
        (fun x hx => by rw [List.eq_of_mem_replicate hx]; norm_num)
    simp only [calculate_qtf, e1, e2]
    norm_num [min_max_scale, survey_adjust]

end Ranking
